import Mathlib

/-!
Shallow embedding of the two route handlers of the MYRSSHUB repository
(`src/lib/routes/stockpicker/index.ts` and
`src/lib/routes/rotation-monitor/index.ts`).

Strings are modelled as `List Char` (`Str`).  JavaScript string operations
(`trim`, `split`, `slice`, `replace`, truthiness of `x || d`, …) are given
explicit executable definitions mirroring their JS semantics on the inputs
that occur in the program.  Directory listing (`readdir`) is modelled as an
`Except` value holding a list of directory entries; `readFile` is modelled as
a total function from the joined path to the file contents.
-/

/-- Strings as lists of characters. -/
abbrev Str := List Char

/-- The character class `\d` of the JS regexes: ASCII decimal digits. -/
def isDigitChar (c : Char) : Bool := decide ('0' ≤ c) && decide (c ≤ '9')

/-- The character class `\w` of the JS regexes: ASCII letters, digits, `_`. -/
def isWordChar (c : Char) : Bool :=
  (decide ('a' ≤ c) && decide (c ≤ 'z')) || (decide ('A' ≤ c) && decide (c ≤ 'Z')) ||
    isDigitChar c || decide (c = '_')

/-- The whitespace characters removed by JavaScript `String.prototype.trim`
(the ASCII ones; the program only ever meets these). -/
def isJsWhitespace (c : Char) : Bool :=
  decide (c = ' ') || decide (c = '\t') || decide (c = '\n') || decide (c = '\r') ||
    decide (c = '\x0b') || decide (c = '\x0c')

/-- JS `s.trim()`: strip leading and trailing whitespace. -/
def jsTrim (s : Str) : Str :=
  ((s.dropWhile isJsWhitespace).reverse.dropWhile isJsWhitespace).reverse

/-- JS `s.split(sep)` for a single-character separator: always returns at
least one piece; splitting the empty string yields `[[]]`. -/
def splitOnChar (sep : Char) : Str → List Str
  | [] => [[]]
  | c :: cs =>
    match splitOnChar sep cs with
    | [] => [[]]
    | h :: t => if c = sep then [] :: h :: t else (c :: h) :: t

/-- JS `x || d` where `x : string | undefined`: `undefined` and the empty
string are falsy and give the default. -/
def jsOrStr (x : Option Str) (d : Str) : Str :=
  match x with
  | some v => if v = [] then d else v
  | none => d

/-- JS truthiness of a `string | undefined` value. -/
def jsTruthy (x : Option Str) : Bool :=
  match x with
  | some v => !decide (v = [])
  | none => false

/-- Template interpolation `${x}` of a `string | undefined` value:
`undefined` prints as the literal text `undefined`. -/
def showField (x : Option Str) : Str :=
  match x with
  | some v => v
  | none => ("undefined".data)

/-- JS `type.replace(c, r)` for single characters: replace the first
occurrence of `c` (if any) by `r`. -/
def jsReplaceFirstChar (c r : Char) : Str → Str
  | [] => []
  | x :: xs => if x = c then r :: xs else x :: jsReplaceFirstChar c r xs

/-- JS `.replace(/^./, s => s.toUpperCase())`: capitalize the first
character, if any. -/
def capFirst : Str → Str
  | [] => []
  | x :: xs => x.toUpper :: xs

/-- JS `Number.parseInt` on the digit strings occurring here: value of the
leading run of decimal digits. -/
def parseIntNat (s : Str) : Nat :=
  (s.takeWhile isDigitChar).foldl (fun n c => n * 10 + (c.toNat - 48)) 0

/-- Decimal rendering of a `Nat`, as interpolated by `${records.length}`. -/
def natToStr (n : Nat) : Str := (toString n).data

/-- Embedding of `path.join(directory, name)` for the simple paths used here. -/
def pathJoin (dir name : Str) : Str := dir ++ '/' :: name

/-- Embedding of `path.basename`: the part after the last `/` (paths here never end in
a slash). -/
def basename (p : Str) : Str := (splitOnChar '/' p).getLastD []

/-- Lexicographic `≤` on character lists; `a.localeCompare(b) ≤ 0` for the
fixed-width ASCII digit strings compared by both routes. -/
def lexLe : Str → Str → Bool
  | [], _ => true
  | _ :: _, [] => false
  | a :: as, b :: bs => if a < b then true else if b < a then false else lexLe as bs

/-- Executable substring test: `pat` occurs contiguously inside `s`. -/
def occursIn (pat : Str) : Str → Bool
  | [] => decide (pat = [])
  | c :: cs => pat.isPrefixOf (c :: cs) || occursIn pat cs

/-- A directory entry as returned by `readdir(..., { withFileTypes: true })`. -/
structure DirEntry where
  name : Str
  isFile : Bool
deriving DecidableEq, Repr

/-- The calendar date constructed by `new Date(year, monthIndex, day)`:
the three constructor arguments (`monthIndex` is 0-based, so
`⟨2024, 0, 2⟩` denotes 2024-01-02).  All dates built by the program have
in-range arguments, so no JS date normalization occurs. -/
structure JsDate where
  year : Nat
  monthIndex : Int
  day : Nat
deriving DecidableEq, Repr

/-- One RSS feed item. -/
structure FeedItem where
  title : Str
  description : Str
  pubDate : JsDate
  category : List Str
deriving DecidableEq, Repr

/-- The feed object returned by a route handler. -/
structure Feed where
  title : Str
  link : Option Str
  description : Str
  item : List FeedItem
deriving DecidableEq, Repr

/-- The date value `new Date(parseInt(d.slice(0,4)), parseInt(d.slice(4,6)) - 1,
parseInt(d.slice(6,8)))` built by both routes from an 8-digit date string. -/
def jsDateOf (dateStr : Str) : JsDate :=
  { year := parseIntNat (dateStr.take 4)
    monthIndex := (parseIntNat ((dateStr.drop 4).take 2) : Int) - 1
    day := parseIntNat ((dateStr.drop 6).take 2) }

/-- Lookup of `record[key]` in the object built row by row (later
assignments overwrite, so the last binding of a key wins); a missing key is
`undefined` (`none`). -/
def recordGet (r : List (Str × Str)) (k : Str) : Option Str :=
  (r.reverse.find? fun p => decide (p.1 = k)).map (·.2)

namespace Stockpicker

/-- The record built for one data row in `parseCSV` of the stockpicker
route: `record[header] = values[index] || ''` for each header position. -/
def buildRecord (headers values : List Str) : List (Str × Str) :=
  headers.enum.map fun p => (p.2, jsOrStr (values.get? p.1) [])

/-- The function `parseCSV` of `src/lib/routes/stockpicker/index.ts`. -/
def parseCSV (content : Str) : List (List (Str × Str)) :=
  let lines := splitOnChar '\n' (jsTrim content)
  let headers := (splitOnChar ',' (lines.headD [])).map jsTrim
  ((lines.drop 1).filter fun line => !decide (jsTrim line = [])).map fun line =>
    buildRecord headers ((splitOnChar ',' line).map jsTrim)

/-- The suffix required after the `\w+` group by the stockpicker filename
regex. -/
def selTail : Str := ("_selected_stocks.csv".data)

/-- The regex `^\d{8}_\w+_selected_stocks\.csv$`: 8 digits, an underscore, a
nonempty run of word characters, then the fixed tail.  Because `\w` excludes
`.`, a name matches exactly when the canonical split below succeeds. -/
def matchesStockName (name : Str) : Bool :=
  decide ((name.take 8).length = 8) && (name.take 8).all isDigitChar &&
    decide ((name.drop 8).take 1 = ['_']) &&
    decide (selTail.length < (name.drop 9).length) &&
    ((name.drop 9).take ((name.drop 9).length - selTail.length)).all isWordChar &&
    decide ((name.drop 9).drop ((name.drop 9).length - selTail.length) = selTail)

/-- The first filter of the handler: regular files whose name ends in
`.csv`. -/
def keepCsvFile (f : DirEntry) : Bool :=
  f.isFile && (".csv".data).isSuffixOf f.name

/-- The comparator of `stockFiles.sort((a, b) => dateB.localeCompare(dateA))`:
`a` sorts before `b` when the 8-character date prefix of `b` is `≤` that of `a`. -/
def fileLe (a b : DirEntry) : Bool := lexLe (b.name.take 8) (a.name.take 8)

/-- The feed item built for one matched CSV file. -/
def mkItem (dir : Str) (readF : Str → Str) (f : DirEntry) : FeedItem :=
  let records := parseCSV (readF (pathJoin dir f.name))
  let parts := (splitOnChar '_' f.name).take 2
  let dateStr := parts.getD 0 []
  let ty := parts.getD 1 []
  let formattedType := capFirst (jsReplaceFirstChar '_' ' ' ty)
  let rows : Nat → List (List (Str × Str)) → Str := fun i rs =>
    (rs.enum.map fun p =>
      let r := p.2
      natToStr (i + p.1 + 1) ++ (". **".data) ++ showField (recordGet r ("name".data)) ++
        ("** (".data) ++ showField (recordGet r ("ts_code".data)) ++ (")\n".data) ++
        ("   - 所属行业: ".data) ++ showField (recordGet r ("industry".data)) ++ ("\n".data) ++
        ("   - 选股权重: ".data) ++ showField (recordGet r ("target_weight".data)) ++ ("\n".data) ++
        (if jsTruthy (recordGet r ("pe".data)) then
          ("   - PE: ".data) ++ showField (recordGet r ("pe".data)) ++ ("\n".data)
        else []) ++
        (if jsTruthy (recordGet r ("pe_percentile".data)) then
          ("   - PE百分位: ".data) ++ showField (recordGet r ("pe_percentile".data)) ++ ("\n".data)
        else []) ++
        ("\n".data)).flatten
  let description :=
    ("### ".data) ++ formattedType ++ (" 选股结果\n\n".data) ++
      ("**日期**: ".data) ++ dateStr ++ ("\n".data) ++
      ("**选股数量**: ".data) ++ natToStr records.length ++ ("只\n\n".data) ++
      rows 0 records
  { title := dateStr ++ (" ".data) ++ formattedType ++ (" 选股结果".data)
    description := description
    pubDate := jsDateOf dateStr
    category := [ty] }

/-- The list of matched files in the order the handler processes them:
filtered twice, then sorted newest first.  JS `Array.prototype.sort` is a
stable sort driven by the comparator; insertion sort realizes exactly that
contract. -/
def sortedStockFiles (entries : List DirEntry) : List DirEntry :=
  List.insertionSort (fun a b => fileLe a b = true)
    ((entries.filter keepCsvFile).filter fun f => matchesStockName f.name)

/-- The feed built by the stockpicker handler on a successful `readdir`. -/
def feedOf (dir : Str) (readF : Str → Str) (entries : List DirEntry) : Feed :=
  { title := ("每日选股数据".data)
    link := some dir
    description := ("每日选股数据RSS源".data)
    item := (sortedStockFiles entries).map (mkItem dir readF) }

/-- The stockpicker handler: `readdir` is awaited outside any `try`, so a
failing listing propagates uncaught. -/
def handler (res : Except Str (List DirEntry)) (readF : Str → Str) (dir : Str) :
    Except Str Feed :=
  match res with
  | .error e => .error e
  | .ok entries => .ok (feedOf dir readF entries)

end Stockpicker

namespace RotationMonitor

/-- The record built for one data row in `parseCSV` of the rotation-monitor
route: values are trimmed with empty cells replaced by `'-'`, and
`record[header] = values[index] || '-'`. -/
def buildRecord (headers values : List Str) : List (Str × Str) :=
  headers.enum.map fun p => (p.2, jsOrStr (values.get? p.1) ['-'])

/-- The function `parseCSV` of `src/lib/routes/rotation-monitor/index.ts`. -/
def parseCSV (content : Str) : List (List (Str × Str)) :=
  let lines := splitOnChar '\n' (jsTrim content)
  if lines.length < 1 then []
  else
    let headers := (splitOnChar ',' (lines.headD [])).map jsTrim
    ((lines.drop 1).filter fun line => !decide (jsTrim line = [])).map fun line =>
      buildRecord headers
        ((splitOnChar ',' line).map fun v => if jsTrim v = [] then ['-'] else jsTrim v)

/-- Fixed tail of `^\d{8}_top_industry_stocks\.csv$`. -/
def topTail : Str := ("_top_industry_stocks.csv".data)

/-- Fixed tail of `^\d{8}_bottom_industry_stocks\.csv$`. -/
def bottomTail : Str := ("_bottom_industry_stocks.csv".data)

/-- Fixed tail of `^\d{8}_industry_performance_trend\.png$`. -/
def imageTail : Str := ("_industry_performance_trend.png".data)

/-- A name matching `^\d{8}<tail>$`: exactly 8 digits followed by the fixed
tail. -/
def matchesDated (tail name : Str) : Bool :=
  decide ((name.take 8).length = 8) && (name.take 8).all isDigitChar &&
    decide (name.drop 8 = tail)

/-- The predicate `isTopCSV`: regular file, `.csv` name, matching the top regex. -/
def isTopCSV (f : DirEntry) : Bool :=
  f.isFile && (".csv".data).isSuffixOf f.name && matchesDated topTail f.name

/-- The predicate `isBottomCSV`. -/
def isBottomCSV (f : DirEntry) : Bool :=
  f.isFile && (".csv".data).isSuffixOf f.name && matchesDated bottomTail f.name

/-- The predicate `isImage`. -/
def isImage (f : DirEntry) : Bool :=
  f.isFile && (".png".data).isSuffixOf f.name && matchesDated imageTail f.name

/-- The value type of the `filesByDate` map. -/
structure DateFiles where
  top : Str
  bottom : Str
  image : Option Str
deriving DecidableEq, Repr

/-- The default `{ top: '', bottom: '', image: null }`. -/
def emptyDF : DateFiles := ⟨[], [], none⟩

/-- A JS `Map` with string keys, as an insertion-ordered association list. -/
abbrev DateMap := List (Str × DateFiles)

/-- Embedding of `Map.prototype.get`. -/
def mapGet (m : DateMap) (k : Str) : Option DateFiles :=
  (m.find? fun p => decide (p.1 = k)).map (·.2)

/-- Embedding of `Map.prototype.set`: replace in place if the key exists, else append. -/
def mapSet : DateMap → Str → DateFiles → DateMap
  | [], k, v => [(k, v)]
  | (k', v') :: rest, k, v =>
    if k' = k then (k, v) :: rest else (k', v') :: mapSet rest k v

/-- The loop over the top-category files: each sets `top` for its date,
preserving any other fields already present. -/
def addTops (dir : Str) : DateMap → List DirEntry → DateMap
  | m, [] => m
  | m, f :: fs =>
    addTops dir
      (mapSet m (f.name.take 8)
        { (mapGet m (f.name.take 8)).getD emptyDF with top := pathJoin dir f.name }) fs

/-- The loop over the bottom-category files: only updates dates already in
the map. -/
def addBottoms (dir : Str) : DateMap → List DirEntry → DateMap
  | m, [] => m
  | m, f :: fs =>
    addBottoms dir
      (match mapGet m (f.name.take 8) with
       | some v => mapSet m (f.name.take 8) { v with bottom := pathJoin dir f.name }
       | none => m) fs

/-- The loop over the image files: only updates dates already in the map. -/
def addImages (dir : Str) : DateMap → List DirEntry → DateMap
  | m, [] => m
  | m, f :: fs =>
    addImages dir
      (match mapGet m (f.name.take 8) with
       | some v => mapSet m (f.name.take 8) { v with image := some (pathJoin dir f.name) }
       | none => m) fs

/-- The fully-populated `filesByDate` map. -/
def filesByDate (dir : Str) (entries : List DirEntry) : DateMap :=
  addImages dir
    (addBottoms dir (addTops dir [] (entries.filter isTopCSV)) (entries.filter isBottomCSV))
    (entries.filter isImage)

/-- The comparator of `toSorted(([dateA], [dateB]) => dateB.localeCompare(dateA))`. -/
def pairLe (a b : Str × DateFiles) : Bool := lexLe b.1 a.1

/-- The list `validRotationData`: entries with both `top` and `bottom` set, sorted by
date descending (`toSorted` is a stable comparator sort, realized by
insertion sort). -/
def validRotationData (dir : Str) (entries : List DirEntry) : DateMap :=
  List.insertionSort (fun a b => pairLe a b = true)
    ((filesByDate dir entries).filter fun p =>
      !decide (p.2.top = []) && !decide (p.2.bottom = []))

/-- The value of `process.env.ROTATION_IMAGE_BASE_URL` with its fallback default. -/
def effBaseUrl (base : Option Str) : Str :=
  jsOrStr base ("http://localhost:1200/rotation-images".data)

/-- The Markdown image line inserted when a chart image exists for the
date. -/
def imageBlock (url : Str) : Str :=
  ("![行业表现趋势](".data) ++ url ++ (")\n\n".data)

/-- The placeholder notice inserted when no chart image exists. -/
def placeholderNotice : Str := ("暂无行业表现趋势图表".data)

/-- The blockquote block holding the placeholder notice. -/
def placeholderBlock : Str := ("> ".data) ++ placeholderNotice ++ ("\n\n".data)

/-- The numbered stock list shared by the two sections of the body. -/
def stockList (records : List (List (Str × Str))) : Str :=
  (records.enum.map fun p =>
    natToStr (p.1 + 1) ++ (". **".data) ++ showField (recordGet p.2 ("name".data)) ++
      ("** (".data) ++ showField (recordGet p.2 ("ts_code".data)) ++ (")\n".data)).flatten

/-- Everything of `mdContent` before the image-or-placeholder block. -/
def mdHead (readF : Str → Str) (dateStr : Str) (fs : DateFiles) : Str :=
  let topRecords := parseCSV (readF fs.top)
  let bottomRecords := parseCSV (readF fs.bottom)
  let topIndustry :=
    jsOrStr (topRecords.head?.bind fun r => recordGet r ("industry".data)) ("未知行业".data)
  let bottomIndustry :=
    jsOrStr (bottomRecords.head?.bind fun r => recordGet r ("industry".data)) ("未知行业".data)
  ("# 轮动行情监控\n\n".data) ++
    ("> 📅 日期：".data) ++ dateStr ++ ("\n\n".data) ++
    ("## 📈 当日领涨板块：".data) ++ topIndustry ++ ("\n\n".data) ++
    ("### 📋 股票列表\n\n".data) ++ stockList topRecords ++ ("\n".data) ++
    ("## 📊 当日高潜板块：".data) ++ bottomIndustry ++ ("\n\n".data) ++
    ("### 📋 股票列表\n\n".data) ++ stockList bottomRecords ++ ("\n".data) ++
    ("## 📉 行业表现趋势\n\n".data)

/-- The full `mdContent` string of one item.  The source feeds this string
through `md.render` of the external `markdown-it` package before storing it
in the description of the item; that rendering step is outside the code of
this repository, so the description is kept here in its Markdown form. -/
def mdContent (readF : Str → Str) (base : Option Str) (dateStr : Str) (fs : DateFiles) : Str :=
  mdHead readF dateStr fs ++
    (match fs.image with
     | some p => imageBlock (effBaseUrl base ++ '/' :: basename p)
     | none => placeholderBlock)

/-- The suffix every item title carries after the date string. -/
def itemTitleTail : Str := (" 轮动行情监控".data)

/-- One feed item of the rotation-monitor route.  The date guard of the
source (`Number.isNaN(date.getTime())`) never fires for the 8-digit date
keys reaching this point, so the date is the direct constructor value. -/
def mkItem (readF : Str → Str) (base : Option Str) (p : Str × DateFiles) : FeedItem :=
  { title := p.1 ++ itemTitleTail
    description := mdContent readF base p.1 p.2
    pubDate := jsDateOf p.1
    category := [("rotation".data), ("stock".data)] }

/-- The feed built by the rotation-monitor handler on a successful
`readdir`. -/
def feedOf (dir : Str) (readF : Str → Str) (base : Option Str)
    (entries : List DirEntry) : Feed :=
  let tops := entries.filter isTopCSV
  let bottoms := entries.filter isBottomCSV
  if tops.length = 0 ∨ bottoms.length = 0 then
    { title := ("轮动行情监控".data), link := some dir
      description := ("未找到符合规则的轮动行情CSV文件".data), item := [] }
  else
    let valid := validRotationData dir entries
    if valid.length = 0 then
      { title := ("轮动行情监控".data), link := some dir
        description := ("未找到完整的轮动行情数据".data), item := [] }
    else
      { title := ("轮动行情监控".data), link := some dir
        description := ("每日轮动行情监控，包括领涨板块和高潜板块数据".data)
        item := valid.map (mkItem readF base) }

/-- The rotation-monitor handler: a failing `readdir` is caught, `ctx.status`
is set to `400` (the first component), and a degraded feed is returned. -/
def handler (res : Except Str (List DirEntry)) (readF : Str → Str) (base : Option Str)
    (dir : Str) : Option Nat × Feed :=
  match res with
  | .error e =>
    (some 400,
      { title := ("读取失败".data), link := none
        description := ("无法读取目录: ".data) ++ dir ++ ("，错误信息: ".data) ++ e
        item := [] })
  | .ok entries => (none, feedOf dir readF base entries)

end RotationMonitor

/-! ## Helper lemmas about the string model -/

lemma pathJoin_ne_nil (dir name : Str) : pathJoin dir name ≠ [] := by
  intro h
  rcases List.append_eq_nil.mp h with ⟨-, h2⟩
  exact List.cons_ne_nil _ _ h2

lemma isPrefixOf_self_append : ∀ (l t : Str), l.isPrefixOf (l ++ t) = true
  | [], _ => by simp [List.isPrefixOf]
  | c :: cs, t => by
    simp only [List.cons_append, List.isPrefixOf, beq_self_eq_true, Bool.true_and]
    exact isPrefixOf_self_append cs t

/-- The pattern occurs in any string of the shape `a ++ (pat ++ b)`. -/
lemma occursIn_append_middle : ∀ (a pat b : Str), occursIn pat (a ++ (pat ++ b)) = true
  | [], pat, b => by
    cases pat with
    | nil =>
      cases b with
      | nil => rfl
      | cons c cs => simp [occursIn, List.isPrefixOf]
    | cons c cs =>
      simp only [List.nil_append, List.cons_append, occursIn, Bool.or_eq_true]
      exact Or.inl (isPrefixOf_self_append (c :: cs) b)
  | c :: cs, pat, b => by
    simp only [List.cons_append, occursIn, Bool.or_eq_true]
    exact Or.inr (occursIn_append_middle cs pat b)

lemma lexLe_total : ∀ a b : Str, lexLe a b = true ∨ lexLe b a = true
  | [], _ => Or.inl rfl
  | _ :: _, [] => Or.inr rfl
  | a :: as, b :: bs => by
    rcases lt_trichotomy a b with h | h | h
    · exact Or.inl (by simp [lexLe, h])
    · subst h
      rcases lexLe_total as bs with h' | h'
      · exact Or.inl (by simp [lexLe, lt_irrefl, h'])
      · exact Or.inr (by simp [lexLe, lt_irrefl, h'])
    · exact Or.inr (by simp [lexLe, h])

lemma lexLe_trans : ∀ a b c : Str, lexLe a b = true → lexLe b c = true → lexLe a c = true
  | [], _, _, _, _ => rfl
  | a :: as, [], _, h, _ => by simp [lexLe] at h
  | _ :: _, _ :: _, [], _, h => by simp [lexLe] at h
  | a :: as, b :: bs, c :: cs, h1, h2 => by
    simp only [lexLe] at h1 h2 ⊢
    rcases lt_trichotomy a b with hab | hab | hab
    · rcases lt_trichotomy b c with hbc | hbc | hbc
      · simp [lt_trans hab hbc]
      · subst hbc
        simp [hab]
      · rw [if_neg (asymm hbc), if_pos hbc] at h2
        simp at h2
    · subst hab
      rw [if_neg (lt_irrefl a), if_neg (lt_irrefl a)] at h1
      rcases lt_trichotomy a c with hac | hac | hac
      · simp [hac]
      · subst hac
        rw [if_neg (lt_irrefl a), if_neg (lt_irrefl a)] at h2 ⊢
        exact lexLe_trans as bs cs h1 h2
      · rw [if_neg (asymm hac), if_pos hac] at h2
        simp at h2
    · rw [if_neg (asymm hab), if_pos hab] at h1
      simp at h1

lemma splitOnChar_ne_nil (sep : Char) : ∀ l : Str, splitOnChar sep l ≠ []
  | [] => by simp [splitOnChar]
  | c :: cs => by
    have := splitOnChar_ne_nil sep cs
    simp only [splitOnChar]
    rcases h : splitOnChar sep cs with - | ⟨h', t⟩
    · exact absurd h this
    · by_cases hc : c = sep <;> simp [hc]

lemma splitOnChar_no_sep (sep : Char) :
    ∀ l : Str, (∀ x ∈ l, x ≠ sep) → splitOnChar sep l = [l]
  | [], _ => rfl
  | c :: cs, h => by
    have ih := splitOnChar_no_sep sep cs fun x hx => h x (List.mem_cons_of_mem _ hx)
    have hc : c ≠ sep := h c (List.mem_cons_self _ _)
    simp [splitOnChar, ih, hc]

lemma splitOnChar_append_cons (sep : Char) :
    ∀ a b : Str, splitOnChar sep (a ++ sep :: b) = splitOnChar sep a ++ splitOnChar sep b
  | [], b => by
    simp only [List.nil_append, splitOnChar]
    rcases h : splitOnChar sep b with - | ⟨h', t⟩
    · exact absurd h (splitOnChar_ne_nil sep b)
    · simp
  | c :: a', b => by
    have ih := splitOnChar_append_cons sep a' b
    rcases h : splitOnChar sep a' with - | ⟨h', t⟩
    · exact absurd h (splitOnChar_ne_nil sep a')
    · simp only [List.cons_append, splitOnChar, List.append_eq]
      rw [ih, h]
      by_cases hc : c = sep <;> simp [hc]

lemma splitOnChar_headD (sep : Char) :
    ∀ l : Str, (splitOnChar sep l).headD [] = l.takeWhile fun x => !decide (x = sep)
  | [] => rfl
  | c :: cs => by
    have ih := splitOnChar_headD sep cs
    simp only [splitOnChar]
    rcases h : splitOnChar sep cs with - | ⟨h', t⟩
    · exact absurd h (splitOnChar_ne_nil sep cs)
    · by_cases hc : c = sep
      · simp [hc, List.takeWhile]
      · rw [h] at ih
        simp only [List.headD] at ih
        simp [hc, List.takeWhile, ih]

lemma jsTrim_eq_nil (l : Str) (h : ∀ x ∈ l, isJsWhitespace x = true) : jsTrim l = [] := by
  unfold jsTrim
  rw [List.dropWhile_eq_nil_iff.mpr h]
  rfl

lemma takeWhile_append_blocked (p : Char → Bool) (x : Char) (hx : p x = false) :
    ∀ (w r : Str), (w ++ x :: r).takeWhile p = w.takeWhile p
  | [], r => by simp [List.takeWhile, hx]
  | c :: w', r => by
    by_cases hc : p c
    · simp [List.takeWhile, hc, takeWhile_append_blocked p x hx w' r]
    · simp [List.takeWhile, hc]

lemma jsReplaceFirstChar_id (c r : Char) :
    ∀ l : Str, (∀ x ∈ l, x ≠ c) → jsReplaceFirstChar c r l = l
  | [], _ => rfl
  | x :: xs, h => by
    have hx : x ≠ c := h x (List.mem_cons_self _ _)
    simp [jsReplaceFirstChar, hx,
      jsReplaceFirstChar_id c r xs fun y hy => h y (List.mem_cons_of_mem _ hy)]

/-! ## Lemmas about the stockpicker filename handling -/

lemma digits_not_underscore {d8 : Str} (hd : d8.all isDigitChar = true) :
    ∀ x ∈ d8, x ≠ '_' := by
  intro x hx
  have := List.all_eq_true.mp hd x hx
  intro hxe
  subst hxe
  simp [isDigitChar] at this

lemma selTail_cons : Stockpicker.selTail = '_' :: ("selected_stocks.csv".data) := rfl

/-- Any name accepted by the stockpicker regex splits as 8 digits, an
underscore, a nonempty word-character run, and the fixed tail. -/
lemma matched_decomp (name : Str) (h : Stockpicker.matchesStockName name = true) :
    ∃ w : Str, name = name.take 8 ++ '_' :: (w ++ Stockpicker.selTail) ∧
      (name.take 8).length = 8 ∧ (name.take 8).all isDigitChar = true ∧
      w ≠ [] ∧ w.all isWordChar = true := by
  unfold Stockpicker.matchesStockName at h
  simp only [Bool.and_eq_true, decide_eq_true_eq] at h
  obtain ⟨⟨⟨⟨⟨h1, h2⟩, h3⟩, h4⟩, h5⟩, h6⟩ := h
  refine ⟨(name.drop 9).take ((name.drop 9).length - Stockpicker.selTail.length),
    ?_, h1, h2, ?_, h5⟩
  · conv_lhs => rw [← List.take_append_drop 8 name]
    congr 1
    conv_lhs => rw [← List.take_append_drop 1 (name.drop 8)]
    rw [h3, List.drop_drop]
    have h9 : (8 : Nat) + 1 = 9 := rfl
    rw [h9]
    conv_lhs =>
      rw [← List.take_append_drop ((name.drop 9).length - Stockpicker.selTail.length)
        (name.drop 9)]
    rw [h6]
    rfl
  · intro hw
    have := congrArg List.length hw
    simp only [List.length_take, List.length_nil] at this
    omega

/-- The first `split('_')` component of a matched name is its 8-digit
prefix. -/
lemma split_headD_digits (d8 rest : Str) (hd : d8.all isDigitChar = true) :
    (splitOnChar '_' (d8 ++ '_' :: rest)).headD [] = d8 := by
  rw [splitOnChar_append_cons, splitOnChar_no_sep '_' d8 (digits_not_underscore hd)]
  rfl

lemma take2_getD0 (l : List Str) : (l.take 2).getD 0 [] = l.headD [] := by
  rcases l with - | ⟨a, t⟩ <;> rfl

lemma take2_getD1 (l : List Str) : (l.take 2).getD 1 [] = l.tail.headD [] := by
  rcases l with - | ⟨a, - | ⟨b, t⟩⟩ <;> rfl

/-- The second `split('_')` component of a matched name is the middle part
up to its first underscore. -/
lemma split_tail_headD (d8 w tail2 : Str) (hd : d8.all isDigitChar = true) :
    ((splitOnChar '_' (d8 ++ '_' :: (w ++ '_' :: tail2))).tail).headD [] =
      w.takeWhile fun x => !decide (x = '_') := by
  rw [splitOnChar_append_cons, splitOnChar_no_sep '_' d8 (digits_not_underscore hd)]
  simp only [List.cons_append, List.tail_cons, List.nil_append]
  rw [splitOnChar_headD]
  exact takeWhile_append_blocked _ '_' (by simp) w tail2

lemma takeWhile_no_underscore (w : Str) :
    ∀ x ∈ w.takeWhile fun x => !decide (x = '_'), x ≠ '_' := by
  intro x hx
  have := List.mem_takeWhile_imp hx
  simpa using this

/-- Characterization of the item built for a matched filename: the raw
first middle segment is the category, its capitalized form sits in the
title after the date prefix. -/
lemma mkItem_title_category (dir : Str) (readF : Str → Str) (f : DirEntry) (w : Str)
    (hname : f.name = f.name.take 8 ++ '_' :: (w ++ Stockpicker.selTail))
    (hd : (f.name.take 8).all isDigitChar = true) :
    (Stockpicker.mkItem dir readF f).category = [w.takeWhile fun x => !decide (x = '_')] ∧
      (Stockpicker.mkItem dir readF f).title =
        f.name.take 8 ++ (" ".data) ++
          capFirst (w.takeWhile fun x => !decide (x = '_')) ++ (" 选股结果".data) := by
  have hds : ((splitOnChar '_' f.name).take 2).getD 0 [] = f.name.take 8 := by
    rw [take2_getD0]
    conv_lhs => rw [hname]
    exact split_headD_digits _ _ hd
  have hty : ((splitOnChar '_' f.name).take 2).getD 1 [] =
      w.takeWhile fun x => !decide (x = '_') := by
    rw [take2_getD1]
    conv_lhs => rw [hname, selTail_cons]
    exact split_tail_headD _ _ _ hd
  have hrep : jsReplaceFirstChar '_' ' ' (w.takeWhile fun x => !decide (x = '_')) =
      w.takeWhile fun x => !decide (x = '_') :=
    jsReplaceFirstChar_id _ _ _ (takeWhile_no_underscore w)
  constructor
  · simp only [Stockpicker.mkItem, hty]
  · simp only [Stockpicker.mkItem, hds, hty, hrep]

/-- The title of the item for a matched file starts with the 8-character
date prefix of the filename. -/
lemma mkItem_title_take8 (dir : Str) (readF : Str → Str) (f : DirEntry)
    (h : Stockpicker.matchesStockName f.name = true) :
    (Stockpicker.mkItem dir readF f).title.take 8 = f.name.take 8 := by
  obtain ⟨w, hname, hlen, hd, -, -⟩ := matched_decomp f.name h
  obtain ⟨-, ht⟩ := mkItem_title_category dir readF f w hname hd
  rw [ht]
  rw [List.append_assoc, List.append_assoc, List.take_append_of_le_length (by rw [hlen])]
  simp [List.take_take]

lemma parseCSV_sp_trim_nil (c : Str) (ht : jsTrim c = []) : Stockpicker.parseCSV c = [] := by
  unfold Stockpicker.parseCSV
  rw [ht]
  rfl

lemma parseCSV_rm_trim_nil (c : Str) (ht : jsTrim c = []) : RotationMonitor.parseCSV c = [] := by
  unfold RotationMonitor.parseCSV
  rw [ht]
  rfl

/-! ## Claim theorems for the stockpicker route -/

/-- C1: for every directory listing, the stockpicker feed has exactly as
many items as there are regular `.csv` files matching the
`\d{8}_\w+_selected_stocks.csv` pattern, and the items appear in
non-increasing lexicographic order of the 8-digit date prefix embedded in
the filename (recovered here as the first 8 characters of each item
title). -/
theorem stockpicker_count_and_sorted (dir : Str) (readF : Str → Str)
    (entries : List DirEntry) :
    (Stockpicker.feedOf dir readF entries).item.length =
        ((entries.filter Stockpicker.keepCsvFile).filter fun f =>
          Stockpicker.matchesStockName f.name).length ∧
      List.Pairwise (fun a b : Str => lexLe b a = true)
        ((Stockpicker.feedOf dir readF entries).item.map fun it => it.title.take 8) := by
  constructor
  · simp [Stockpicker.feedOf, Stockpicker.sortedStockFiles, List.length_insertionSort]
  · have hmem : ∀ f ∈ Stockpicker.sortedStockFiles entries,
        Stockpicker.matchesStockName f.name = true := by
      intro f hf
      exact (List.mem_filter.mp ((List.mem_insertionSort _).mp hf)).2
    letI : IsTotal DirEntry fun a b => Stockpicker.fileLe a b = true := by
      constructor
      intro a b
      rcases lexLe_total (b.name.take 8) (a.name.take 8) with h | h
      · exact Or.inl h
      · exact Or.inr h
    letI : IsTrans DirEntry fun a b => Stockpicker.fileLe a b = true := by
      constructor
      intro a b c hab hbc
      exact lexLe_trans _ _ _ hbc hab
    have hsorted := List.sorted_insertionSort (fun a b => Stockpicker.fileLe a b = true)
      ((entries.filter Stockpicker.keepCsvFile).filter fun f =>
        Stockpicker.matchesStockName f.name)
    simp only [Stockpicker.feedOf, List.map_map]
    rw [List.pairwise_map]
    refine List.Pairwise.imp_of_mem ?_ hsorted
    intro a b ha hb hab
    simp only [Function.comp]
    rw [mkItem_title_take8 _ _ _ (hmem a ha), mkItem_title_take8 _ _ _ (hmem b hb)]
    exact hab

/-- C2 (counterexample): the filename `20240102_selected_stocks.csv` named by
the spec has no middle `\w+_` segment, so it fails the stockpicker regex and
the feed for a directory holding exactly that file (with the CSV content
named by the spec) has no items at all. -/
theorem stockpicker_spec_filename_not_matched :
    (Stockpicker.feedOf ("/data".data)
        (fun _ =>
          ("ts_code,target_weight,name,industry,pe,pe_percentile\n000001.SZ,0.05,PingAn,Banking,10.2,50".data))
        [⟨("20240102_selected_stocks.csv".data), true⟩]).item = [] := by
  decide

/-- C2 (amended): with the pattern-conforming filename
`20240102_value_selected_stocks.csv` and the same CSV content, the single
feed item has a description containing the name, code, weight and
industry of the record, and its publication date is `new Date(2024, 0, 2)`, i.e.
2024-01-02. -/
theorem stockpicker_concrete_example_fields :
    ((Stockpicker.feedOf ("/data".data)
        (fun _ =>
          ("ts_code,target_weight,name,industry,pe,pe_percentile\n000001.SZ,0.05,PingAn,Banking,10.2,50".data))
        [⟨("20240102_value_selected_stocks.csv".data), true⟩]).item.map fun it =>
      (occursIn ("PingAn".data) it.description, occursIn ("000001.SZ".data) it.description,
        occursIn ("0.05".data) it.description, occursIn ("Banking".data) it.description,
        it.pubDate)) =
      [(true, true, true, true, ⟨2024, 0, 2⟩)] := by
  decide

/-- C7 (counterexample): for the matched filename
`20240102_value_growth_selected_stocks.csv` the part between the date prefix
and the fixed suffix is `value_growth`, whose capitalization is
`Value_growth`; but the category of the item is the bare first segment `value`
and its title does not contain `Value_growth`. -/
theorem stockpicker_type_label_counterexample :
    ((Stockpicker.feedOf ("/d".data) (fun _ => [])
        [⟨("20240102_value_growth_selected_stocks.csv".data), true⟩]).item.map fun it =>
      (it.category, occursIn ("Value_growth".data) it.title)) =
      [([("value".data)], false)] := by
  decide

/-- C7 (amended): for every matched filename `d8 ++ "_" ++ w ++
"_selected_stocks.csv"`, the extracted type label is the part of `w` up to
its first underscore; the label appears uncapitalized as the sole
category of the item, and first-letter-capitalized as the middle component of the
title. -/
theorem stockpicker_type_label_amended (dir : Str) (readF : Str → Str) (f : DirEntry)
    (w : Str) (hname : f.name = f.name.take 8 ++ '_' :: (w ++ Stockpicker.selTail))
    (hd : (f.name.take 8).all isDigitChar = true) :
    (Stockpicker.mkItem dir readF f).category = [w.takeWhile fun x => !decide (x = '_')] ∧
      (Stockpicker.mkItem dir readF f).title =
        f.name.take 8 ++ (" ".data) ++
          capFirst (w.takeWhile fun x => !decide (x = '_')) ++ (" 选股结果".data) :=
  mkItem_title_category dir readF f w hname hd

theorem stockpicker_type_label_amended_witness :
    ((⟨("20240102_value_growth_selected_stocks.csv".data), true⟩ : DirEntry).name =
        (("20240102_value_growth_selected_stocks.csv".data) : Str).take 8 ++
          '_' :: (("value_growth".data) ++ Stockpicker.selTail)) ∧
      (Stockpicker.mkItem ("/d".data) (fun _ => [])
          ⟨("20240102_value_growth_selected_stocks.csv".data), true⟩).category =
        [("value_growth".data).takeWhile fun x => !decide (x = '_')] ∧
      (Stockpicker.mkItem ("/d".data) (fun _ => [])
          ⟨("20240102_value_growth_selected_stocks.csv".data), true⟩).title =
        (("20240102_value_growth_selected_stocks.csv".data) : Str).take 8 ++ (" ".data) ++
          capFirst (("value_growth".data).takeWhile fun x => !decide (x = '_')) ++
          (" 选股结果".data) := by
  refine ⟨by decide, ?_, ?_⟩
  · exact (stockpicker_type_label_amended ("/d".data) (fun _ => []) _ ("value_growth".data)
      (by decide) (by decide)).1
  · exact (stockpicker_type_label_amended ("/d".data) (fun _ => []) _ ("value_growth".data)
      (by decide) (by decide)).2

/-- C4: a failing `readdir` makes the stockpicker handler propagate the
error unchanged, while the rotation-monitor handler returns status 400 and
a degraded feed whose item list is empty and whose description carries the
error message. -/
theorem readdir_error_behavior (e dir : Str) (readF : Str → Str) (base : Option Str) :
    Stockpicker.handler (.error e) readF dir = .error e ∧
      (RotationMonitor.handler (.error e) readF base dir).1 = some 400 ∧
      (RotationMonitor.handler (.error e) readF base dir).2.item = [] ∧
      occursIn e (RotationMonitor.handler (.error e) readF base dir).2.description = true := by
  refine ⟨rfl, rfl, rfl, ?_⟩
  show occursIn e (("无法读取目录: ".data) ++ dir ++ ("，错误信息: ".data) ++ e) = true
  have h : ("无法读取目录: ".data) ++ dir ++ ("，错误信息: ".data) ++ e =
      (("无法读取目录: ".data) ++ dir ++ ("，错误信息: ".data)) ++ (e ++ []) := by
    simp
  rw [h]
  exact occursIn_append_middle _ e []

/-- C9: both `parseCSV` functions are total, and on empty or whitespace-only
input the trimmed text collapses to a single (header) line, so no data rows
remain and the record list is empty. -/
theorem parseCSV_whitespace (c : Str) (h : ∀ x ∈ c, isJsWhitespace x = true) :
    Stockpicker.parseCSV c = [] ∧ RotationMonitor.parseCSV c = [] :=
  ⟨parseCSV_sp_trim_nil c (jsTrim_eq_nil c h), parseCSV_rm_trim_nil c (jsTrim_eq_nil c h)⟩

theorem parseCSV_whitespace_witness :
    (∀ x ∈ (" \t\n\r ".data), isJsWhitespace x = true) ∧
      Stockpicker.parseCSV (" \t\n\r ".data) = [] ∧
      RotationMonitor.parseCSV (" \t\n\r ".data) = [] :=
  ⟨by decide, (parseCSV_whitespace _ (by decide)).1, (parseCSV_whitespace _ (by decide)).2⟩

/-- C8: a directory with zero files matching the patterns of a route yields a
feed (not an error) with an empty item list and a non-empty description. -/
theorem no_matching_files_empty_feed (dir : Str) (readF : Str → Str) (base : Option Str)
    (entries : List DirEntry) :
    ((entries.filter Stockpicker.keepCsvFile).filter
          (fun f => Stockpicker.matchesStockName f.name) = [] →
        (Stockpicker.feedOf dir readF entries).item = [] ∧
          (Stockpicker.feedOf dir readF entries).description ≠ []) ∧
      (entries.filter (fun f => RotationMonitor.isTopCSV f || RotationMonitor.isBottomCSV f ||
          RotationMonitor.isImage f) = [] →
        (RotationMonitor.feedOf dir readF base entries).item = [] ∧
          (RotationMonitor.feedOf dir readF base entries).description ≠ []) := by
  constructor
  · intro h
    constructor
    · simp only [Stockpicker.feedOf, Stockpicker.sortedStockFiles, h]
      rfl
    · simp only [Stockpicker.feedOf]
      decide
  · intro h
    have hall := List.filter_eq_nil_iff.mp h
    have htop : entries.filter RotationMonitor.isTopCSV = [] := by
      refine List.filter_eq_nil_iff.mpr fun f hf => ?_
      have := hall f hf
      simp only [Bool.or_eq_true, not_or] at this
      exact this.1.1
    constructor
    · simp [RotationMonitor.feedOf, htop]
    · simp only [RotationMonitor.feedOf, htop]
      simp

theorem no_matching_files_empty_feed_witness :
    (([⟨("readme.txt".data), true⟩] : List DirEntry).filter Stockpicker.keepCsvFile).filter
        (fun f => Stockpicker.matchesStockName f.name) = [] ∧
      ([⟨("readme.txt".data), true⟩] : List DirEntry).filter
        (fun f => RotationMonitor.isTopCSV f || RotationMonitor.isBottomCSV f ||
          RotationMonitor.isImage f) = [] ∧
      (Stockpicker.feedOf ("/d".data) (fun _ => []) [⟨("readme.txt".data), true⟩]).item = [] ∧
      (RotationMonitor.feedOf ("/d".data) (fun _ => []) none
        [⟨("readme.txt".data), true⟩]).item = [] :=
  ⟨by decide, by decide,
    ((no_matching_files_empty_feed ("/d".data) (fun _ => []) none
      [⟨("readme.txt".data), true⟩]).1 (by decide)).1,
    ((no_matching_files_empty_feed ("/d".data) (fun _ => []) none
      [⟨("readme.txt".data), true⟩]).2 (by decide)).1⟩

/-- C5: when a data row has fewer fields than the header, every header
position at or beyond the row length is bound to the empty string by the
stockpicker parser and to the placeholder `-` by the rotation-monitor
parser; the parsers are total, as the concrete short-row evaluations show. -/
theorem parseCSV_missing_fields_default (hs vs : List Str) (i : Nat) (hi : i < hs.length)
    (hvs : vs.length ≤ i) :
    (Stockpicker.buildRecord hs vs).getD i ([], []) = (hs.getD i [], []) ∧
      (RotationMonitor.buildRecord hs vs).getD i ([], []) = (hs.getD i [], ['-']) ∧
      Stockpicker.parseCSV ("h1,h2\nv1".data) =
        [[(('h' :: ['1']), ('v' :: ['1'])), (('h' :: ['2']), [])]] ∧
      RotationMonitor.parseCSV ("h1,h2\nv1".data) =
        [[(('h' :: ['1']), ('v' :: ['1'])), (('h' :: ['2']), ['-'])]] := by
  have hsome : hs.get? i = some (hs.get ⟨i, hi⟩) := List.get?_eq_get hi
  have hgetD : hs.getD i [] = hs.get ⟨i, hi⟩ := by
    rw [List.getD_eq_get?, hsome]
    rfl
  refine ⟨?_, ?_, by decide, by decide⟩
  · rw [List.getD_eq_get?, Stockpicker.buildRecord, List.get?_map, List.enum_get?, hsome,
      hgetD]
    simp only [Option.map_some', Option.getD_some]
    rw [List.get?_eq_none.mpr hvs]
    rfl
  · rw [List.getD_eq_get?, RotationMonitor.buildRecord, List.get?_map, List.enum_get?, hsome,
      hgetD]
    simp only [Option.map_some', Option.getD_some]
    rw [List.get?_eq_none.mpr hvs]
    rfl

theorem parseCSV_missing_fields_default_witness :
    1 < ([('a' :: []), ('b' :: [])] : List Str).length ∧
      ([('x' :: [])] : List Str).length ≤ 1 ∧
      (Stockpicker.buildRecord [('a' :: []), ('b' :: [])] [('x' :: [])]).getD 1 ([], []) =
        (('b' :: []), []) ∧
      (RotationMonitor.buildRecord [('a' :: []), ('b' :: [])] [('x' :: [])]).getD 1 ([], []) =
        (('b' :: []), ['-']) :=
  ⟨by decide, by decide,
    (parseCSV_missing_fields_default [('a' :: []), ('b' :: [])] [('x' :: [])] 1
      (by decide) (by decide)).1,
    (parseCSV_missing_fields_default [('a' :: []), ('b' :: [])] [('x' :: [])] 1
      (by decide) (by decide)).2.1⟩

/-! ## Lemmas about the rotation-monitor date map -/

/-- The last entry of `fs` whose 8-character date prefix is `k`: JS `Map`
updates in iteration order leave the last write for each key. -/
def lastDated (k : Str) : List DirEntry → Option DirEntry
  | [] => none
  | f :: fs =>
    match lastDated k fs with
    | some g => some g
    | none => if f.name.take 8 = k then some f else none

lemma lastDated_mem {k : Str} : ∀ {fs : List DirEntry} {f : DirEntry},
    lastDated k fs = some f → f ∈ fs ∧ f.name.take 8 = k := by
  intro fs
  induction fs with
  | nil => intro f h; simp [lastDated] at h
  | cons g fs ih =>
    intro f h
    rw [lastDated] at h
    rcases hl : lastDated k fs with - | f'
    · rw [hl] at h
      by_cases hg : g.name.take 8 = k
      · rw [if_pos hg] at h
        obtain rfl : g = f := by injection h
        exact ⟨List.mem_cons_self _ _, hg⟩
      · rw [if_neg hg] at h
        exact absurd h (by simp)
    · rw [hl] at h
      obtain rfl : f' = f := by injection h
      obtain ⟨hmem, hk⟩ := ih hl
      exact ⟨List.mem_cons_of_mem _ hmem, hk⟩

lemma lastDated_cons_some {k : Str} {g : DirEntry} {fs : List DirEntry} {f' : DirEntry}
    (h : lastDated k fs = some f') : lastDated k (g :: fs) = some f' := by
  rw [lastDated, h]

lemma lastDated_cons_none {k : Str} {g : DirEntry} {fs : List DirEntry}
    (h : lastDated k fs = none) :
    lastDated k (g :: fs) = if g.name.take 8 = k then some g else none := by
  rw [lastDated, h]

lemma lastDated_ne_none {k : Str} : ∀ {fs : List DirEntry},
    lastDated k fs ≠ none ↔ ∃ f ∈ fs, f.name.take 8 = k := by
  intro fs
  induction fs with
  | nil => simp [lastDated]
  | cons g fs ih =>
    rcases hl : lastDated k fs with - | f'
    · rw [hl] at ih
      rw [lastDated_cons_none hl]
      by_cases hg : g.name.take 8 = k
      · rw [if_pos hg]
        simp only [ne_eq, reduceCtorEq, not_false_eq_true, true_iff]
        exact ⟨g, List.mem_cons_self _ _, hg⟩
      · rw [if_neg hg, ih]
        constructor
        · rintro ⟨f, hf, hfk⟩
          exact ⟨f, List.mem_cons_of_mem _ hf, hfk⟩
        · rintro ⟨f, hf, hfk⟩
          rcases List.mem_cons.mp hf with rfl | hf'
          · exact absurd hfk hg
          · exact ⟨f, hf', hfk⟩
    · rw [lastDated_cons_some hl]
      simp only [ne_eq, reduceCtorEq, not_false_eq_true, true_iff]
      obtain ⟨hmem, hk⟩ := lastDated_mem hl
      exact ⟨f', List.mem_cons_of_mem _ hmem, hk⟩

lemma mapGet_cons (k0 : Str) (v0 : RotationMonitor.DateFiles)
    (m : RotationMonitor.DateMap) (k : Str) :
    RotationMonitor.mapGet ((k0, v0) :: m) k =
      if k0 = k then some v0 else RotationMonitor.mapGet m k := by
  by_cases h : k0 = k <;> simp [RotationMonitor.mapGet, List.find?, h]

lemma mapGet_nil (k : Str) : RotationMonitor.mapGet [] k = none := rfl

lemma mapGet_mapSet : ∀ (m : RotationMonitor.DateMap) (k k' : Str)
    (v : RotationMonitor.DateFiles),
    RotationMonitor.mapGet (RotationMonitor.mapSet m k v) k' =
      if k' = k then some v else RotationMonitor.mapGet m k'
  | [], k, k', v => by
    rw [RotationMonitor.mapSet, mapGet_cons, mapGet_nil]
    split_ifs with h1 h2 h3 <;>
      first
        | rfl
        | exact absurd h1.symm h2
        | exact absurd h3.symm h1
  | (k0, v0) :: m, k, k', v => by
    rw [RotationMonitor.mapSet]
    by_cases h0 : k0 = k
    · subst h0
      rw [if_pos rfl, mapGet_cons, mapGet_cons]
      split_ifs with h1 h2 h3 <;>
        first
          | rfl
          | exact absurd h1.symm h2
          | exact absurd h2.symm h1
          | exact absurd h3.symm h1
    · rw [if_neg h0, mapGet_cons, mapGet_cons, mapGet_mapSet m k k' v]
      split_ifs with h1 h2 h3 <;>
        first
          | rfl
          | exact absurd (h1.trans h2) h0

/-- Full characterization of the top-file loop: the value at `k` gets
`top` from the last top file dated `k`, other fields kept. -/
lemma mapGet_addTops (dir : Str) : ∀ (fs : List DirEntry) (m : RotationMonitor.DateMap)
    (k : Str),
    RotationMonitor.mapGet (RotationMonitor.addTops dir m fs) k =
      match lastDated k fs with
      | none => RotationMonitor.mapGet m k
      | some f =>
        some { ((RotationMonitor.mapGet m k).getD RotationMonitor.emptyDF) with
          top := pathJoin dir f.name }
  | [], m, k => by rw [RotationMonitor.addTops, lastDated]
  | f :: fs, m, k => by
    rw [RotationMonitor.addTops, mapGet_addTops dir fs _ k]
    by_cases hk : k = f.name.take 8
    · simp only [mapGet_mapSet, if_pos hk]
      rw [hk]
      rcases hl : lastDated (f.name.take 8) fs with - | g
      · rw [lastDated_cons_none hl, if_pos rfl]
      · rw [lastDated_cons_some hl]
        rfl
    · simp only [mapGet_mapSet, if_neg hk]
      rcases hl : lastDated k fs with - | g
      · rw [lastDated_cons_none hl, if_neg fun hh => hk hh.symm]
      · rw [lastDated_cons_some hl]

/-- Full characterization of the bottom-file loop: only keys already present
are touched; `bottom` gets the last bottom file dated `k`. -/
lemma mapGet_addBottoms (dir : Str) : ∀ (fs : List DirEntry) (m : RotationMonitor.DateMap)
    (k : Str),
    RotationMonitor.mapGet (RotationMonitor.addBottoms dir m fs) k =
      match RotationMonitor.mapGet m k, lastDated k fs with
      | none, _ => none
      | some v, none => some v
      | some v, some f => some { v with bottom := pathJoin dir f.name }
  | [], m, k => by
    rw [RotationMonitor.addBottoms, lastDated]
    rcases RotationMonitor.mapGet m k with - | v <;> rfl
  | f :: fs, m, k => by
    rw [RotationMonitor.addBottoms]
    rcases hm : RotationMonitor.mapGet m (f.name.take 8) with - | v0
    · rw [mapGet_addBottoms dir fs m k]
      by_cases hk : k = f.name.take 8
      · rw [hk, hm]
      · rcases hl : lastDated k fs with - | g
        · rw [lastDated_cons_none hl, if_neg fun hh => hk hh.symm]
        · rw [lastDated_cons_some hl]
    · rw [mapGet_addBottoms dir fs _ k]
      by_cases hk : k = f.name.take 8
      · simp only [mapGet_mapSet, if_pos hk]
        rw [hk, hm]
        rcases hl : lastDated (f.name.take 8) fs with - | g
        · rw [lastDated_cons_none hl, if_pos rfl]
        · rw [lastDated_cons_some hl]
      · simp only [mapGet_mapSet, if_neg hk]
        rcases hl : lastDated k fs with - | g
        · rw [lastDated_cons_none hl, if_neg fun hh => hk hh.symm]
        · rw [lastDated_cons_some hl]

/-- Full characterization of the image loop: only keys already present are
touched; `image` gets the last image file dated `k`. -/
lemma mapGet_addImages (dir : Str) : ∀ (fs : List DirEntry) (m : RotationMonitor.DateMap)
    (k : Str),
    RotationMonitor.mapGet (RotationMonitor.addImages dir m fs) k =
      match RotationMonitor.mapGet m k, lastDated k fs with
      | none, _ => none
      | some v, none => some v
      | some v, some f => some { v with image := some (pathJoin dir f.name) }
  | [], m, k => by
    rw [RotationMonitor.addImages, lastDated]
    rcases RotationMonitor.mapGet m k with - | v <;> rfl
  | f :: fs, m, k => by
    rw [RotationMonitor.addImages]
    rcases hm : RotationMonitor.mapGet m (f.name.take 8) with - | v0
    · rw [mapGet_addImages dir fs m k]
      by_cases hk : k = f.name.take 8
      · rw [hk, hm]
      · rcases hl : lastDated k fs with - | g
        · rw [lastDated_cons_none hl, if_neg fun hh => hk hh.symm]
        · rw [lastDated_cons_some hl]
    · rw [mapGet_addImages dir fs _ k]
      by_cases hk : k = f.name.take 8
      · simp only [mapGet_mapSet, if_pos hk]
        rw [hk, hm]
        rcases hl : lastDated (f.name.take 8) fs with - | g
        · rw [lastDated_cons_none hl, if_pos rfl]
        · rw [lastDated_cons_some hl]
      · simp only [mapGet_mapSet, if_neg hk]
        rcases hl : lastDated k fs with - | g
        · rw [lastDated_cons_none hl, if_neg fun hh => hk hh.symm]
        · rw [lastDated_cons_some hl]

/-- Composite characterization of the fully-built `filesByDate` map. -/
lemma mapGet_filesByDate (dir : Str) (entries : List DirEntry) (k : Str) :
    RotationMonitor.mapGet (RotationMonitor.filesByDate dir entries) k =
      match lastDated k (entries.filter RotationMonitor.isTopCSV),
        lastDated k (entries.filter RotationMonitor.isBottomCSV),
        lastDated k (entries.filter RotationMonitor.isImage) with
      | none, _, _ => none
      | some ft, ob, oi =>
        some { top := pathJoin dir ft.name
               bottom := match ob with
                 | none => []
                 | some fb => pathJoin dir fb.name
               image := match oi with
                 | none => none
                 | some fi => some (pathJoin dir fi.name) } := by
  rw [RotationMonitor.filesByDate, mapGet_addImages, mapGet_addBottoms, mapGet_addTops,
    mapGet_nil]
  rcases lastDated k (entries.filter RotationMonitor.isTopCSV) with - | ft <;>
    rcases lastDated k (entries.filter RotationMonitor.isBottomCSV) with - | fb <;>
      rcases lastDated k (entries.filter RotationMonitor.isImage) with - | fi <;> rfl

lemma mapGet_ne_none_of_mem {m : RotationMonitor.DateMap} {k : Str}
    {v : RotationMonitor.DateFiles} (h : (k, v) ∈ m) :
    RotationMonitor.mapGet m k ≠ none := by
  unfold RotationMonitor.mapGet
  intro hc
  rw [Option.map_eq_none'] at hc
  have := List.find?_eq_none.mp hc (k, v) h
  simp at this

lemma mem_of_mapGet {m : RotationMonitor.DateMap} {k : Str} {v : RotationMonitor.DateFiles}
    (h : RotationMonitor.mapGet m k = some v) : (k, v) ∈ m := by
  unfold RotationMonitor.mapGet at h
  rcases hf : m.find? (fun p => decide (p.1 = k)) with - | p
  · rw [hf] at h
    simp at h
  · rw [hf] at h
    simp only [Option.map_some'] at h
    obtain rfl : p.2 = v := by injection h
    have h1 : p.1 = k := by simpa using List.find?_some hf
    have h2 := List.mem_of_find?_eq_some hf
    have hp : p = (k, p.2) := by
      rw [← h1]
    rwa [← hp]

lemma mem_keys_mapSet : ∀ (m : RotationMonitor.DateMap) (k k' : Str)
    (v : RotationMonitor.DateFiles),
    k' ∈ (RotationMonitor.mapSet m k v).map Prod.fst ↔ k' ∈ m.map Prod.fst ∨ k' = k
  | [], k, k', v => by
    rw [RotationMonitor.mapSet]
    simp [eq_comm]
  | (k0, v0) :: m, k, k', v => by
    rw [RotationMonitor.mapSet]
    by_cases h0 : k0 = k
    · rw [if_pos h0]
      subst h0
      simp only [List.map_cons, List.mem_cons]
      tauto
    · rw [if_neg h0]
      simp only [List.map_cons, List.mem_cons, mem_keys_mapSet m k k' v]
      tauto

lemma keys_nodup_mapSet : ∀ (m : RotationMonitor.DateMap) (k : Str)
    (v : RotationMonitor.DateFiles), (m.map Prod.fst).Nodup →
    ((RotationMonitor.mapSet m k v).map Prod.fst).Nodup
  | [], k, v, _ => by
    rw [RotationMonitor.mapSet]
    simp
  | (k0, v0) :: m, k, v, h => by
    rw [RotationMonitor.mapSet]
    by_cases h0 : k0 = k
    · rw [if_pos h0]
      subst h0
      rw [List.map_cons] at h ⊢
      exact h
    · rw [if_neg h0]
      simp only [List.map_cons, List.nodup_cons] at h ⊢
      refine ⟨?_, keys_nodup_mapSet m k v h.2⟩
      intro hmem
      rcases (mem_keys_mapSet m k k0 v).mp hmem with h' | h'
      · exact h.1 h'
      · exact h0 h'

lemma keys_nodup_addTops (dir : Str) : ∀ (fs : List DirEntry)
    (m : RotationMonitor.DateMap), (m.map Prod.fst).Nodup →
    ((RotationMonitor.addTops dir m fs).map Prod.fst).Nodup
  | [], m, h => by rwa [RotationMonitor.addTops]
  | f :: fs, m, h => by
    rw [RotationMonitor.addTops]
    exact keys_nodup_addTops dir fs _ (keys_nodup_mapSet _ _ _ h)

lemma keys_nodup_addBottoms (dir : Str) : ∀ (fs : List DirEntry)
    (m : RotationMonitor.DateMap), (m.map Prod.fst).Nodup →
    ((RotationMonitor.addBottoms dir m fs).map Prod.fst).Nodup
  | [], m, h => by rwa [RotationMonitor.addBottoms]
  | f :: fs, m, h => by
    rw [RotationMonitor.addBottoms]
    rcases hm : RotationMonitor.mapGet m (f.name.take 8) with - | v0
    · exact keys_nodup_addBottoms dir fs m h
    · exact keys_nodup_addBottoms dir fs _ (keys_nodup_mapSet _ _ _ h)

lemma keys_nodup_addImages (dir : Str) : ∀ (fs : List DirEntry)
    (m : RotationMonitor.DateMap), (m.map Prod.fst).Nodup →
    ((RotationMonitor.addImages dir m fs).map Prod.fst).Nodup
  | [], m, h => by rwa [RotationMonitor.addImages]
  | f :: fs, m, h => by
    rw [RotationMonitor.addImages]
    rcases hm : RotationMonitor.mapGet m (f.name.take 8) with - | v0
    · exact keys_nodup_addImages dir fs m h
    · exact keys_nodup_addImages dir fs _ (keys_nodup_mapSet _ _ _ h)

lemma filesByDate_keys_nodup (dir : Str) (entries : List DirEntry) :
    ((RotationMonitor.filesByDate dir entries).map Prod.fst).Nodup := by
  rw [RotationMonitor.filesByDate]
  exact keys_nodup_addImages dir _ _
    (keys_nodup_addBottoms dir _ _ (keys_nodup_addTops dir _ _ (by simp)))

lemma mapGet_eq_of_mem : ∀ (m : RotationMonitor.DateMap) (k : Str)
    (v : RotationMonitor.DateFiles), (m.map Prod.fst).Nodup → (k, v) ∈ m →
    RotationMonitor.mapGet m k = some v
  | [], k, v, _, h => absurd h (List.not_mem_nil _)
  | (k0, v0) :: m, k, v, hnd, h => by
    rw [mapGet_cons]
    rcases List.mem_cons.mp h with heq | hmem
    · obtain ⟨rfl, rfl⟩ := Prod.mk.inj heq
      rw [if_pos rfl]
    · by_cases h0 : k0 = k
      · subst h0
        exfalso
        simp only [List.map_cons, List.nodup_cons] at hnd
        exact hnd.1 (List.mem_map.mpr ⟨(k0, v), hmem, rfl⟩)
      · rw [if_neg h0]
        simp only [List.map_cons, List.nodup_cons] at hnd
        exact mapGet_eq_of_mem m k v hnd.2 hmem

lemma matchesDated_decomp (tail name : Str)
    (h : RotationMonitor.matchesDated tail name = true) :
    name = name.take 8 ++ tail ∧ (name.take 8).all isDigitChar = true := by
  unfold RotationMonitor.matchesDated at h
  simp only [Bool.and_eq_true, decide_eq_true_eq] at h
  obtain ⟨⟨h1, h2⟩, h3⟩ := h
  refine ⟨?_, h2⟩
  conv_lhs => rw [← List.take_append_drop 8 name]
  rw [h3]

lemma lastDated_filter_iff (k : Str) (entries : List DirEntry) (pred : DirEntry → Bool) :
    lastDated k (entries.filter pred) ≠ none ↔
      ∃ f ∈ entries, pred f = true ∧ f.name.take 8 = k := by
  rw [lastDated_ne_none]
  constructor
  · rintro ⟨f, hf, hk⟩
    obtain ⟨h1, h2⟩ := List.mem_filter.mp hf
    exact ⟨f, h1, h2, hk⟩
  · rintro ⟨f, h1, h2, hk⟩
    exact ⟨f, List.mem_filter.mpr ⟨h1, h2⟩, hk⟩

lemma mem_valid_iff (dir : Str) (entries : List DirEntry)
    (p : Str × RotationMonitor.DateFiles) :
    p ∈ RotationMonitor.validRotationData dir entries ↔
      RotationMonitor.mapGet (RotationMonitor.filesByDate dir entries) p.1 = some p.2 ∧
        p.2.top ≠ [] ∧ p.2.bottom ≠ [] := by
  rw [RotationMonitor.validRotationData, List.mem_insertionSort, List.mem_filter]
  constructor
  · rintro ⟨hmem, hpred⟩
    simp only [Bool.and_eq_true, Bool.not_eq_true', decide_eq_false_iff_not] at hpred
    exact ⟨mapGet_eq_of_mem _ _ _ (filesByDate_keys_nodup dir entries)
      (by obtain ⟨k, v⟩ := p; exact hmem), hpred⟩
  · rintro ⟨hget, ht, hb⟩
    refine ⟨by obtain ⟨k, v⟩ := p; exact mem_of_mapGet hget, ?_⟩
    simp only [Bool.and_eq_true, Bool.not_eq_true', decide_eq_false_iff_not]
    exact ⟨ht, hb⟩

lemma hasTop_iff (dir : Str) (entries : List DirEntry) (k : Str) :
    RotationMonitor.mapGet (RotationMonitor.filesByDate dir entries) k ≠ none ↔
      ∃ f ∈ entries, RotationMonitor.isTopCSV f = true ∧ f.name.take 8 = k := by
  rw [mapGet_filesByDate]
  constructor
  · intro h
    rcases hlt : lastDated k (entries.filter RotationMonitor.isTopCSV) with - | ft
    · rw [hlt] at h
      simp at h
    · obtain ⟨hmem, hk⟩ := lastDated_mem hlt
      obtain ⟨h1, h2⟩ := List.mem_filter.mp hmem
      exact ⟨ft, h1, h2, hk⟩
  · rintro ⟨f, h1, h2, hk⟩
    have hne : lastDated k (entries.filter RotationMonitor.isTopCSV) ≠ none :=
      lastDated_ne_none.mpr ⟨f, List.mem_filter.mpr ⟨h1, h2⟩, hk⟩
    rcases hlt : lastDated k (entries.filter RotationMonitor.isTopCSV) with - | ft
    · exact absurd hlt hne
    · rcases lastDated k (entries.filter RotationMonitor.isBottomCSV) with - | fb <;>
        rcases lastDated k (entries.filter RotationMonitor.isImage) with - | fi <;> simp

/-- The fields of any value stored in `filesByDate`: a nonempty `top` path,
`bottom` nonempty exactly when a bottom file of that date exists, `image`
present exactly when an image file of that date exists, and then equal to
the path of the (unique) image filename of that date; the key is made of
digits. -/
lemma filesByDate_value (dir : Str) (entries : List DirEntry) (k : Str)
    (v : RotationMonitor.DateFiles)
    (h : RotationMonitor.mapGet (RotationMonitor.filesByDate dir entries) k = some v) :
    v.top ≠ [] ∧
      (v.bottom ≠ [] ↔
        ∃ f ∈ entries, RotationMonitor.isBottomCSV f = true ∧ f.name.take 8 = k) ∧
      (v.image ≠ none ↔
        ∃ f ∈ entries, RotationMonitor.isImage f = true ∧ f.name.take 8 = k) ∧
      (∀ q, v.image = some q → q = pathJoin dir (k ++ RotationMonitor.imageTail)) ∧
      k.all isDigitChar = true := by
  rw [mapGet_filesByDate] at h
  rcases hlt : lastDated k (entries.filter RotationMonitor.isTopCSV) with - | ft
  · rw [hlt] at h
    simp at h
  · rw [hlt] at h
    have hkdig : k.all isDigitChar = true := by
      obtain ⟨hmem, hk⟩ := lastDated_mem hlt
      obtain ⟨-, h2⟩ := List.mem_filter.mp hmem
      have h3 : RotationMonitor.matchesDated RotationMonitor.topTail ft.name = true := by
        unfold RotationMonitor.isTopCSV at h2
        simp only [Bool.and_eq_true] at h2
        exact h2.2
      obtain ⟨-, hdig⟩ := matchesDated_decomp _ _ h3
      rw [← hk]
      exact hdig
    have himgval : ∀ fi : DirEntry,
        lastDated k (entries.filter RotationMonitor.isImage) = some fi →
        pathJoin dir fi.name = pathJoin dir (k ++ RotationMonitor.imageTail) := by
      intro fi hli
      obtain ⟨hmem, hk⟩ := lastDated_mem hli
      obtain ⟨-, h2⟩ := List.mem_filter.mp hmem
      have h3 : RotationMonitor.matchesDated RotationMonitor.imageTail fi.name = true := by
        unfold RotationMonitor.isImage at h2
        simp only [Bool.and_eq_true] at h2
        exact h2.2
      obtain ⟨hdecomp, -⟩ := matchesDated_decomp _ _ h3
      have hfi : fi.name = k ++ RotationMonitor.imageTail := by
        conv_lhs => rw [hdecomp, hk]
      unfold pathJoin
      rw [hfi]
    rcases hlb : lastDated k (entries.filter RotationMonitor.isBottomCSV) with - | fb <;>
      rcases hli : lastDated k (entries.filter RotationMonitor.isImage) with - | fi <;>
      rw [hlb, hli] at h <;> simp only [Option.some.injEq] at h <;> subst h
    · refine ⟨pathJoin_ne_nil _ _, ?_, ?_, ?_, hkdig⟩
      · rw [← lastDated_filter_iff k entries RotationMonitor.isBottomCSV, hlb]
        simp
      · rw [← lastDated_filter_iff k entries RotationMonitor.isImage, hli]
        simp
      · intro q hq
        simp at hq
    · refine ⟨pathJoin_ne_nil _ _, ?_, ?_, ?_, hkdig⟩
      · rw [← lastDated_filter_iff k entries RotationMonitor.isBottomCSV, hlb]
        simp
      · rw [← lastDated_filter_iff k entries RotationMonitor.isImage, hli]
        simp
      · intro q hq
        obtain rfl : q = pathJoin dir fi.name := by simpa using hq.symm
        exact himgval fi hli
    · refine ⟨pathJoin_ne_nil _ _, ?_, ?_, ?_, hkdig⟩
      · rw [← lastDated_filter_iff k entries RotationMonitor.isBottomCSV, hlb]
        simp [pathJoin_ne_nil]
      · rw [← lastDated_filter_iff k entries RotationMonitor.isImage, hli]
        simp
      · intro q hq
        simp at hq
    · refine ⟨pathJoin_ne_nil _ _, ?_, ?_, ?_, hkdig⟩
      · rw [← lastDated_filter_iff k entries RotationMonitor.isBottomCSV, hlb]
        simp [pathJoin_ne_nil]
      · rw [← lastDated_filter_iff k entries RotationMonitor.isImage, hli]
        simp
      · intro q hq
        obtain rfl : q = pathJoin dir fi.name := by simpa using hq.symm
        exact himgval fi hli

lemma basename_pathJoin (a b : Str) (hb : ∀ x ∈ b, x ≠ '/') :
    basename (pathJoin a b) = b := by
  unfold basename pathJoin
  rw [splitOnChar_append_cons, splitOnChar_no_sep '/' b hb, List.getLastD_concat]

/-- A feed item with title `d ++ " 轮动行情监控"` exists exactly when the
date `d` survives into `validRotationData`. -/
lemma feed_title_iff (dir : Str) (readF : Str → Str) (base : Option Str)
    (entries : List DirEntry) (d : Str) :
    (∃ it ∈ (RotationMonitor.feedOf dir readF base entries).item,
        it.title = d ++ RotationMonitor.itemTitleTail) ↔
      ∃ v, (d, v) ∈ RotationMonitor.validRotationData dir entries := by
  simp only [RotationMonitor.feedOf]
  by_cases h1 : (entries.filter RotationMonitor.isTopCSV).length = 0 ∨
      (entries.filter RotationMonitor.isBottomCSV).length = 0
  · rw [if_pos h1]
    constructor
    · rintro ⟨it, hit, -⟩
      exact absurd hit (List.not_mem_nil it)
    · rintro ⟨v, hv⟩
      obtain ⟨hget, ht, hb⟩ := (mem_valid_iff dir entries (d, v)).mp hv
      obtain ⟨-, hbiff, -, -, -⟩ := filesByDate_value dir entries d v hget
      have htop := (hasTop_iff dir entries d).mp (by rw [hget]; simp)
      have hbot := hbiff.mp hb
      exfalso
      rcases h1 with h1 | h1
      · obtain ⟨f, hf, hft, hfd⟩ := htop
        have hmem : f ∈ entries.filter RotationMonitor.isTopCSV :=
          List.mem_filter.mpr ⟨hf, hft⟩
        rw [List.length_eq_zero.mp h1] at hmem
        exact absurd hmem (List.not_mem_nil f)
      · obtain ⟨f, hf, hft, hfd⟩ := hbot
        have hmem : f ∈ entries.filter RotationMonitor.isBottomCSV :=
          List.mem_filter.mpr ⟨hf, hft⟩
        rw [List.length_eq_zero.mp h1] at hmem
        exact absurd hmem (List.not_mem_nil f)
  · rw [if_neg h1]
    by_cases h2 : (RotationMonitor.validRotationData dir entries).length = 0
    · rw [if_pos h2]
      constructor
      · rintro ⟨it, hit, -⟩
        exact absurd hit (List.not_mem_nil it)
      · rintro ⟨v, hv⟩
        rw [List.length_eq_zero.mp h2] at hv
        exact absurd hv (List.not_mem_nil _)
    · rw [if_neg h2]
      constructor
      · rintro ⟨it, hit, htitle⟩
        obtain ⟨p, hp, rfl⟩ := List.mem_map.mp hit
        have hpd : p.1 = d := List.append_cancel_right htitle
        refine ⟨p.2, ?_⟩
        rw [← hpd]
        exact hp
      · rintro ⟨v, hv⟩
        exact ⟨RotationMonitor.mkItem readF base (d, v), List.mem_map_of_mem _ hv, rfl⟩

/-- C3: the rotation-monitor route emits a feed item for a date if and only
if both a top-category CSV and a bottom-category CSV exist for that date. -/
theorem rotation_pair_iff (dir : Str) (readF : Str → Str) (base : Option Str)
    (entries : List DirEntry) (d : Str) :
    (∃ it ∈ (RotationMonitor.feedOf dir readF base entries).item,
        it.title = d ++ RotationMonitor.itemTitleTail) ↔
      ((∃ f ∈ entries, RotationMonitor.isTopCSV f = true ∧ f.name.take 8 = d) ∧
        (∃ f ∈ entries, RotationMonitor.isBottomCSV f = true ∧ f.name.take 8 = d)) := by
  rw [feed_title_iff]
  constructor
  · rintro ⟨v, hv⟩
    obtain ⟨hget, ht, hb⟩ := (mem_valid_iff dir entries (d, v)).mp hv
    obtain ⟨-, hbiff, -, -, -⟩ := filesByDate_value dir entries d v hget
    exact ⟨(hasTop_iff dir entries d).mp (by rw [hget]; simp), hbiff.mp hb⟩
  · rintro ⟨htop, hbot⟩
    have hne := (hasTop_iff dir entries d).mpr htop
    rcases hget : RotationMonitor.mapGet (RotationMonitor.filesByDate dir entries) d
      with - | v
    · exact absurd hget hne
    · obtain ⟨ht, hbiff, -, -, -⟩ := filesByDate_value dir entries d v hget
      exact ⟨v, (mem_valid_iff dir entries (d, v)).mpr ⟨hget, ht, hbiff.mpr hbot⟩⟩

theorem rotation_pair_iff_witness :
    (∃ it ∈ (RotationMonitor.feedOf ("/d".data) (fun _ => []) none
        [⟨("20240102_top_industry_stocks.csv".data), true⟩,
          ⟨("20240102_bottom_industry_stocks.csv".data), true⟩]).item,
      it.title = ("20240102".data) ++ RotationMonitor.itemTitleTail) ∧
      ¬∃ it ∈ (RotationMonitor.feedOf ("/d".data) (fun _ => []) none
          [⟨("20240103_top_industry_stocks.csv".data), true⟩]).item,
        it.title = ("20240103".data) ++ RotationMonitor.itemTitleTail := by
  constructor
  · exact (rotation_pair_iff ("/d".data) (fun _ => []) none
      [⟨("20240102_top_industry_stocks.csv".data), true⟩,
        ⟨("20240102_bottom_industry_stocks.csv".data), true⟩]
      ("20240102".data)).mpr ⟨by decide, by decide⟩
  · intro hex
    have := (rotation_pair_iff ("/d".data) (fun _ => []) none
      [⟨("20240103_top_industry_stocks.csv".data), true⟩] ("20240103".data)).mp hex
    revert this
    decide

/-- C10: every key of the per-date grouping map comes from a top-category
file; for a date with no top-category file, no feed item carries the title
of that date and no grouped entry ever references the image file of that date. -/
theorem rotation_top_only_dates (dir : Str) (readF : Str → Str) (base : Option Str)
    (entries : List DirEntry) (d : Str) :
    (∀ p ∈ RotationMonitor.filesByDate dir entries,
        ∃ f ∈ entries, RotationMonitor.isTopCSV f = true ∧ f.name.take 8 = p.1) ∧
      ((¬∃ f ∈ entries, RotationMonitor.isTopCSV f = true ∧ f.name.take 8 = d) →
        (∀ it ∈ (RotationMonitor.feedOf dir readF base entries).item,
            it.title ≠ d ++ RotationMonitor.itemTitleTail) ∧
          ∀ p ∈ RotationMonitor.validRotationData dir entries,
            p.2.image ≠ some (pathJoin dir (d ++ RotationMonitor.imageTail))) := by
  have hmemTop : ∀ p ∈ RotationMonitor.filesByDate dir entries,
      ∃ f ∈ entries, RotationMonitor.isTopCSV f = true ∧ f.name.take 8 = p.1 := by
    intro p hp
    obtain ⟨k, v⟩ := p
    exact (hasTop_iff dir entries k).mp (mapGet_ne_none_of_mem hp)
  refine ⟨hmemTop, ?_⟩
  intro hno
  constructor
  · intro it hit htitle
    obtain ⟨v, hv⟩ := (feed_title_iff dir readF base entries d).mp ⟨it, hit, htitle⟩
    obtain ⟨hget, -, -⟩ := (mem_valid_iff dir entries (d, v)).mp hv
    exact hno ((hasTop_iff dir entries d).mp (by rw [hget]; simp))
  · intro p hp himg
    obtain ⟨hget, -, -⟩ := (mem_valid_iff dir entries p).mp hp
    obtain ⟨-, -, -, himgval, -⟩ := filesByDate_value dir entries p.1 p.2 hget
    have hq := himgval _ himg
    have heq : p.1 ++ RotationMonitor.imageTail = d ++ RotationMonitor.imageTail := by
      unfold pathJoin at hq
      have h2 := List.append_cancel_left hq
      injection h2 with hhead h3
      exact h3.symm
    have hpd : p.1 = d := List.append_cancel_right heq
    have hmem : p ∈ RotationMonitor.filesByDate dir entries := by
      obtain ⟨k, v⟩ := p
      exact mem_of_mapGet hget
    obtain ⟨f, hf, hft, hfd⟩ := hmemTop p hmem
    exact hno ⟨f, hf, hft, by rw [hfd, hpd]⟩

theorem rotation_top_only_dates_witness :
    (¬∃ f ∈ ([⟨("20240105_bottom_industry_stocks.csv".data), true⟩,
          ⟨("20240105_industry_performance_trend.png".data), true⟩] : List DirEntry),
        RotationMonitor.isTopCSV f = true ∧ f.name.take 8 = ("20240105".data)) ∧
      (∀ it ∈ (RotationMonitor.feedOf ("/d".data) (fun _ => []) none
          [⟨("20240105_bottom_industry_stocks.csv".data), true⟩,
            ⟨("20240105_industry_performance_trend.png".data), true⟩]).item,
        it.title ≠ ("20240105".data) ++ RotationMonitor.itemTitleTail) := by
  refine ⟨by decide, ?_⟩
  exact ((rotation_top_only_dates ("/d".data) (fun _ => []) none
    [⟨("20240105_bottom_industry_stocks.csv".data), true⟩,
      ⟨("20240105_industry_performance_trend.png".data), true⟩]
    ("20240105".data)).2 (by decide)).1

/-- C6: for every date that qualifies for a feed item, the Markdown
body (the string the source hands to the external `markdown-it` renderer)
references the chart image through the URL `effBaseUrl base ++ "/" ++
basename(imagePath)` when an image file exists for the date, and carries
the no-chart placeholder notice when none exists; the image path, when
present, is exactly the joined path of the image filename of that date. -/
theorem rotation_image_reference (dir : Str) (readF : Str → Str) (base : Option Str)
    (entries : List DirEntry) (d : Str) (fs : RotationMonitor.DateFiles)
    (h : (d, fs) ∈ RotationMonitor.validRotationData dir entries) :
    (fs.image ≠ none ↔
        ∃ f ∈ entries, RotationMonitor.isImage f = true ∧ f.name.take 8 = d) ∧
      (fs.image = none →
        occursIn RotationMonitor.placeholderNotice
          ((RotationMonitor.mkItem readF base (d, fs)).description) = true) ∧
      ∀ q, fs.image = some q →
        q = pathJoin dir (d ++ RotationMonitor.imageTail) ∧
          basename q = d ++ RotationMonitor.imageTail ∧
          occursIn (RotationMonitor.imageBlock
              (RotationMonitor.effBaseUrl base ++ '/' :: basename q))
            ((RotationMonitor.mkItem readF base (d, fs)).description) = true := by
  obtain ⟨hget, -, -⟩ := (mem_valid_iff dir entries (d, fs)).mp h
  obtain ⟨-, -, himgiff, himgval, hdig⟩ := filesByDate_value dir entries d fs hget
  refine ⟨himgiff, ?_, ?_⟩
  · intro hnone
    have hdesc : (RotationMonitor.mkItem readF base (d, fs)).description =
        (RotationMonitor.mdHead readF d fs ++ ("> ".data)) ++
          (RotationMonitor.placeholderNotice ++ ("\n\n".data)) := by
      simp only [RotationMonitor.mkItem, RotationMonitor.mdContent, hnone,
        RotationMonitor.placeholderBlock, List.append_assoc]
    rw [hdesc]
    exact occursIn_append_middle _ _ _
  · intro q hq
    have hqval := himgval q hq
    have hbase : basename q = d ++ RotationMonitor.imageTail := by
      rw [hqval]
      refine basename_pathJoin dir _ ?_
      intro x hx
      rcases List.mem_append.mp hx with hx | hx
      · have hdx := List.all_eq_true.mp hdig x hx
        intro hxe
        subst hxe
        simp [isDigitChar] at hdx
      · intro hxe
        subst hxe
        revert hx
        decide
    refine ⟨hqval, hbase, ?_⟩
    have hdesc : (RotationMonitor.mkItem readF base (d, fs)).description =
        RotationMonitor.mdHead readF d fs ++
          (RotationMonitor.imageBlock
            (RotationMonitor.effBaseUrl base ++ '/' :: basename q) ++ []) := by
      simp only [RotationMonitor.mkItem, RotationMonitor.mdContent, hq, List.append_nil]
    rw [hdesc]
    exact occursIn_append_middle _ _ _

theorem rotation_image_reference_witness :
    (("20240102".data,
        (⟨("/d/20240102_top_industry_stocks.csv".data),
          ("/d/20240102_bottom_industry_stocks.csv".data),
          some ("/d/20240102_industry_performance_trend.png".data)⟩ :
            RotationMonitor.DateFiles)) ∈
      RotationMonitor.validRotationData ("/d".data)
        [⟨("20240102_top_industry_stocks.csv".data), true⟩,
          ⟨("20240102_bottom_industry_stocks.csv".data), true⟩,
          ⟨("20240102_industry_performance_trend.png".data), true⟩]) ∧
      occursIn (RotationMonitor.imageBlock
          (RotationMonitor.effBaseUrl none ++ '/' ::
            basename ("/d/20240102_industry_performance_trend.png".data)))
        ((RotationMonitor.mkItem (fun _ => []) none
          (("20240102".data),
            ⟨("/d/20240102_top_industry_stocks.csv".data),
              ("/d/20240102_bottom_industry_stocks.csv".data),
              some ("/d/20240102_industry_performance_trend.png".data)⟩)).description) =
        true := by
  refine ⟨by decide, ?_⟩
  exact ((rotation_image_reference ("/d".data) (fun _ => []) none
    [⟨("20240102_top_industry_stocks.csv".data), true⟩,
      ⟨("20240102_bottom_industry_stocks.csv".data), true⟩,
      ⟨("20240102_industry_performance_trend.png".data), true⟩]
    ("20240102".data) _ (by decide)).2.2 _ rfl).2.2
